import Mathlib

/-!
Verification of the scoring-and-recommendation core of `daily_update.py`
(NBA-Fantasy repository).

The embedding models the three core operations:
* `compute_z_scores` (lines 114-141): per-category z-score normalization over
  a projection table, with missing columns filled with 0.0 and unparseable or
  missing cells coerced to 0.0 (`pd.to_numeric(..., errors="coerce").fillna(0.0)`),
  population standard deviation (`ddof=0`), and a divisor of 1.0 when the
  standard deviation is 0.
* `lookup_player_proj` (lines 143-155): exact match on the lowercased,
  stripped player name, then a fallback `str.contains` (a regular-expression
  search in pandas) of the first whitespace token of the lowercased input name
  against the lowercased (unstripped) projection names.  A name whose
  lowercased form has no whitespace-delimited token raises `IndexError`
  (`player_name.lower().split()[0]` on an empty split); this is modelled with
  `Except`.  The regular-expression semantics are modelled exactly on the
  fragment of literal characters plus the metacharacter `.`; a token outside
  that fragment is mapped to an error value marking the model's boundary
  (the code raises `re.error` for invalid patterns such as "(", and applies
  full regex semantics for valid ones such as "a*" — neither behaviour is
  modelled, and no certified statement reaches that branch).
* `prepare_report` (lines 157-238): maps roster and waiver names to aggregate
  z-scores (unmatched names get the fixed value -999.0), ranks them, and emits
  an add/drop suggestion exactly when the best waiver aggregate strictly
  exceeds the worst roster aggregate.  An empty roster raises: line 182 builds
  `pd.DataFrame([])`, which has no columns, so line 183's
  `sort_values("z_total")` raises `KeyError` — the waiver side is guarded
  against emptiness (lines 187-188), the roster side is not.

Numbers are modelled by `ℝ` (the Python code uses floats; claims about the
arithmetic are read in exact arithmetic, as the spec's "exact arithmetic"
phrasing directs).  Strings are handled at the level of `List Char` via
`String.data`; `Char.toLower` / `Char.isWhitespace` model Python's
`str.lower` / whitespace splitting and stripping for the ASCII inputs the
claims exercise.  `pandas.sort_values` is modelled as a stable sort
(first-occurrence order on ties); pandas' default `kind='quicksort'` does not
guarantee tie order, so tie-order-dependent facts are facts of the model, and
the certified statements use the sort only in tie-independent ways or on
inputs small enough (under numpy's 16-element insertion-sort threshold) that
the program's behaviour coincides with the stable order.
-/

/-- The eight stat categories of `CATS` (line 42):
PTS, REB, AST, STL, BLK, 3PM, FG%, FT%. -/
inductive StatCategory where
  | PTS | REB | AST | STL | BLK | TPM | FGP | FTP
  deriving DecidableEq

/-- `CATS = ["PTS", "REB", "AST", "STL", "BLK", "3PM", "FG%", "FT%"]` (line 42). -/
def CATS : List StatCategory :=
  [.PTS, .REB, .AST, .STL, .BLK, .TPM, .FGP, .FTP]

/-- A raw projection row: a player name and, per category, either a present
parsed numeric value (`some v`) or an absent/unparseable cell (`none`).
`pd.to_numeric(..., errors="coerce")` turns unparseable cells into NaN, which
line 126 then treats exactly like missing cells, so both are `none` here. -/
structure ProjRow where
  player : String
  stats : StatCategory → Option ℝ

/-- A projection table: the rows plus whether a `Player` column is present
(line 168 checks `"Player" not in proj_z.columns`).  A category column that is
absent from the table is modelled by every row having `none` in that category:
line 123 fills an absent column with 0.0 for every row, which is the same
outcome as coercing an all-missing column (line 126). -/
structure ProjTable where
  hasPlayerCol : Bool
  rows : List ProjRow

/-- Line 126: `df[cat] = pd.to_numeric(df[cat], errors="coerce").fillna(0.0)` —
the numeric value actually used for a cell: the parsed value, or 0.0. -/
noncomputable def coerce (r : ProjRow) (c : StatCategory) : ℝ :=
  (r.stats c).getD 0

/-- The coerced column of a category, in row order. -/
noncomputable def catCol (df : ProjTable) (c : StatCategory) : List ℝ :=
  df.rows.map (fun r => coerce r c)

/-- Line 132: `mean = df[cat].mean()` over the coerced column. -/
noncomputable def catMean (df : ProjTable) (c : StatCategory) : ℝ :=
  (catCol df c).sum / (catCol df c).length

/-- Population variance of the coerced column (`ddof=0`). -/
noncomputable def catVar (df : ProjTable) (c : StatCategory) : ℝ :=
  ((catCol df c).map (fun x => (x - catMean df c) ^ 2)).sum / (catCol df c).length

/-- `df[cat].std(ddof=0)`: population standard deviation of the coerced column. -/
noncomputable def catStd0 (df : ProjTable) (c : StatCategory) : ℝ :=
  Real.sqrt (catVar df c)

/-- Line 133: `std = df[cat].std(ddof=0) if df[cat].std(ddof=0) != 0 else 1.0`. -/
noncomputable def catStd (df : ProjTable) (c : StatCategory) : ℝ :=
  if catStd0 df c = 0 then 1 else catStd0 df c

/-- An output row of `compute_z_scores`: the (coerced) stat columns, the
`z_<CAT>` columns, and `z_total`.  Every field is numeric; the function has no
sentinel value for rows without data. -/
structure ZRow where
  player : String
  stats : StatCategory → ℝ
  z : StatCategory → ℝ
  z_total : ℝ

/-- The table returned by `compute_z_scores` (plus the `Player`-column flag,
carried through unchanged). -/
structure ZTable where
  hasPlayerCol : Bool
  rows : List ZRow

/-- The output row of `compute_z_scores` for one input row: the coerced stat
columns, `z_<CAT> = (value - mean) / std` per category (line 135), and
`z_total` the sum of the eight `z_<CAT>` values (line 139). -/
noncomputable def zRowOf (df : ProjTable) (r : ProjRow) : ZRow :=
  { player := r.player
    stats := fun c => coerce r c
    z := fun c => (coerce r c - catMean df c) / catStd df c
    z_total := (CATS.map (fun c => (coerce r c - catMean df c) / catStd df c)).sum }

/-- Lines 114-141: coerce every cell (missing columns and unparseable or
missing cells become 0.0), compute `z_<CAT> = (value - mean) / std` with the
population std replaced by 1.0 when it is 0, and `z_total` the sum of the
eight `z_<CAT>` columns. -/
noncomputable def compute_z_scores (df : ProjTable) : ZTable :=
  { hasPlayerCol := df.hasPlayerCol
    rows := df.rows.map (zRowOf df) }

/-- The `z_<CAT>` column of the output of `compute_z_scores`, in row order. -/
noncomputable def zCol (df : ProjTable) (c : StatCategory) : List ℝ :=
  (compute_z_scores df).rows.map (fun r => r.z c)

/-- The values actually present (parsed) in a category's column, in row
order.  Used to state the spec's "present values only" claims. -/
noncomputable def presentVals (df : ProjTable) (c : StatCategory) : List ℝ :=
  df.rows.filterMap (fun r => r.stats c)

/-- Modelled from the spec: the population mean over only the rows with a
present value for the category (spec §4.1: rows missing the value are
excluded from that category's mean computation, not treated as zero). -/
noncomputable def presentMean (df : ProjTable) (c : StatCategory) : ℝ :=
  (presentVals df c).sum / (presentVals df c).length

/-- Python `str.lower` applied characterwise, as a character list. -/
def lowerL (s : String) : List Char :=
  s.data.map Char.toLower

/-- Python `str.strip()`: drop leading and trailing whitespace characters. -/
def trimL (l : List Char) : List Char :=
  ((l.dropWhile Char.isWhitespace).reverse.dropWhile Char.isWhitespace).reverse

/-- The matching key of line 148: `name.lower().strip()`. -/
def normKeyL (s : String) : List Char :=
  trimL (lowerL s)

/-- The maximal leading run of non-whitespace characters. -/
def takeTok : List Char → List Char
  | [] => []
  | c :: cs => if c.isWhitespace then [] else c :: takeTok cs

/-- Python `s.split()[0]` (line 152): the first whitespace-delimited token,
or `none` when the string has no non-whitespace character (in which case the
Python expression raises `IndexError`). -/
def firstTokenL : List Char → Option (List Char)
  | [] => none
  | c :: cs => if c.isWhitespace then firstTokenL cs else some (c :: takeTok cs)

/-- Matching of a regular-expression pattern against a prefix of the text.
Pandas `str.contains` treats its argument as a regular expression; the model
covers patterns built from literal characters and the metacharacter `.`
(match any one character), which is the fragment the program's inputs
exercise. -/
def patMatchesAt : List Char → List Char → Bool
  | [], _ => true
  | _ :: _, [] => false
  | p :: ps, c :: cs => (p == '.' || p == c) && patMatchesAt ps cs

/-- `re.search` of the pattern anywhere in the text. -/
def patSearchL (pat : List Char) : List Char → Bool
  | [] => patMatchesAt pat []
  | c :: cs => patMatchesAt pat (c :: cs) || patSearchL pat cs

/-- Literal (substring) matching of a prefix: the plain-containment reading. -/
def litMatchesAt : List Char → List Char → Bool
  | [], _ => true
  | _ :: _, [] => false
  | p :: ps, c :: cs => p == c && litMatchesAt ps cs

/-- Plain substring containment of `pat` anywhere in the text. -/
def litSearchL (pat : List Char) : List Char → Bool
  | [] => litMatchesAt pat []
  | c :: cs => litMatchesAt pat (c :: cs) || litSearchL pat cs

/-- The metacharacters of Python regular expressions. -/
def isRegexMeta (c : Char) : Bool :=
  c ∈ ['.', '^', '$', '*', '+', '?', '\x7b', '\x7d', '[', ']', '(', ')', '|', '\\']

/-- Tokens within the modelled regular-expression fragment: literal
characters and the metacharacter `.` only.  `str.contains` compiles its
argument with `re`: a token containing other metacharacters is outside the
model — the code raises `re.error` for an invalid pattern such as "(", and
applies full (unmodelled) regex semantics for a valid one such as "a*". -/
def regexFragmentOk (tk : List Char) : Bool :=
  tk.all (fun c => c == '.' || !(isRegexMeta c))

/-- Lines 143-155.  Exact match first: the first row whose
`Player.lower().strip()` equals `player_name.lower().strip()`
(`found.iloc[0]` takes the first matching row).  Otherwise the fallback:
`player_name.lower().split()[0]` — raising `IndexError` when the split is
empty — is searched (as a regular expression, via `str.contains`) in each
`Player.lower()` (note: lowercased but not stripped), taking the first match;
otherwise `None`.  A token outside the modelled regex fragment is mapped to
an error value marking the model's boundary: on such tokens the code may
raise `re.error` (invalid pattern) or apply full regex semantics (valid
pattern); neither is modelled and no certified statement reaches this
branch. -/
def lookup_player_proj (df : ZTable) (name : String) : Except String (Option ZRow) :=
  match df.rows.find? (fun r => normKeyL r.player == normKeyL name) with
  | some r => .ok (some r)
  | none =>
    match firstTokenL (lowerL name) with
    | none => .error "IndexError: list index out of range"
    | some tk =>
      if regexFragmentOk tk then
        .ok (df.rows.find? (fun r => patSearchL tk (lowerL r.player)))
      else .error "re.error: token outside the modelled regex fragment"

/-- Modelled from the spec (§4.2 and claim C6's wording): exact match on the
case-folded, trimmed key; if none, the first containment (plain substring)
match of the first whitespace-delimited token of the case-folded input name
in the normalized (case-folded, trimmed) projection names, in projection
order; if neither rule matches (including a name with no token), absent. -/
def lookupSpec (df : ZTable) (name : String) : Option ZRow :=
  match df.rows.find? (fun r => normKeyL r.player == normKeyL name) with
  | some r => some r
  | none =>
    match firstTokenL (lowerL name) with
    | none => none
    | some tk => df.rows.find? (fun r => litSearchL tk (normKeyL r.player))

/-- A name on which the modelled `lookup_player_proj` cannot raise: it
either has an exact (case-folded, trimmed) match among the projection rows,
or its lowercased form has a first whitespace-delimited token (so
`split()[0]` is defined) that stays within the modelled regex fragment (no
metacharacters besides `.`), so the `str.contains` pattern cannot raise
`re.error`. -/
def matchableName (df : ZTable) (p : String) : Prop :=
  (∃ r ∈ df.rows, normKeyL r.player = normKeyL p) ∨
  ∃ tk, firstTokenL (lowerL p) = some tk ∧ regexFragmentOk tk = true

/-- The per-player loop of lines 174-181 / 191-198, left to right, first
exception aborting the whole computation. -/
def lookupAll (df : ZTable) : List String → Except String (List (Option ZRow))
  | [] => .ok []
  | p :: ps =>
    match lookup_player_proj df p with
    | .error e => .error e
    | .ok o =>
      match lookupAll df ps with
      | .error e => .error e
      | .ok os => .ok (o :: os)

/-- One entry of `roster_z` / `waiver_z`: a player name and its aggregate. -/
structure ZEntry where
  player : String
  z_total : ℝ

/-- Lines 179 / 181: an unmatched player gets the fixed aggregate -999.0, a
matched one its `z_total`. -/
noncomputable def entryOf (p : String) (o : Option ZRow) : ZEntry :=
  match o with
  | none => ⟨p, -999⟩
  | some r => ⟨p, r.z_total⟩

/-- The scored entry list for a name list, given the lookup results. -/
noncomputable def entriesOf (names : List String) (os : List (Option ZRow)) : List ZEntry :=
  (names.zip os).map (fun pr => entryOf pr.1 pr.2)

/-- Lines 174-182 / 190-199 as one operation: the scored entries of a name
list against the scored projection table (first lookup exception aborts). -/
noncomputable def scoreEntries (df : ZTable) (names : List String) :
    Except String (List ZEntry) :=
  (lookupAll df names).map (fun os => entriesOf names os)

/-- Stable ascending insertion: the new element goes before the first
existing element that is not strictly smaller, so earlier input stays first
on ties. -/
noncomputable def insertAsc (e : ZEntry) : List ZEntry → List ZEntry
  | [] => [e]
  | x :: xs => if x.z_total < e.z_total then x :: insertAsc e xs else e :: x :: xs

/-- Line 183: `sort_values("z_total", ascending=True)`, modelled as a stable
ascending sort.  pandas' default `kind='quicksort'` does not guarantee the
order of tied entries, so tie order here is a choice of the model (matching
numpy's behaviour below its 16-element insertion-sort threshold); the
certified statements do not rely on tie order beyond such inputs. -/
noncomputable def sortAsc (l : List ZEntry) : List ZEntry :=
  l.foldr insertAsc []

/-- Stable descending insertion. -/
noncomputable def insertDesc (e : ZEntry) : List ZEntry → List ZEntry
  | [] => [e]
  | x :: xs => if e.z_total < x.z_total then x :: insertDesc e xs else e :: x :: xs

/-- Line 200: `sort_values("z_total", ascending=False)`, modelled as a stable
descending sort, with the same caveat on tie order as `sortAsc`. -/
noncomputable def sortDesc (l : List ZEntry) : List ZEntry :=
  l.foldr insertDesc []

/-- The suggestion record of lines 214-220. -/
structure Suggestion where
  add : String
  add_z : ℝ
  drop : String
  drop_z : ℝ
  z_gain : ℝ

/-- Lines 208-220: with `waiver_z` and `roster_z` both nonempty, take the head
of the descending waiver ranking and the head of the ascending roster ranking;
emit the suggestion exactly when `delta > 0`. -/
noncomputable def makeSuggestion (roster_z waiver_z : List ZEntry) : Option Suggestion :=
  match waiver_z, roster_z with
  | a :: _, d :: _ =>
    if a.z_total - d.z_total > 0 then
      some ⟨a.player, a.z_total, d.player, d.z_total, a.z_total - d.z_total⟩
    else none
  | _, _ => none

/-- The report dictionary of lines 232-238. -/
structure Report where
  underperformers : List ZEntry
  top_waivers : List ZEntry
  suggestion : Option Suggestion
  team_proj : StatCategory → ℝ
  proj_count : ℕ

/-- Lines 157-238.  Computes z-scores for the projection table, raises
(models: returns `.error`) when the `Player` column is missing (line 169),
maps roster names through `lookup_player_proj` (each lookup can raise), then
builds and sorts the roster entry list.  For an *empty* roster, line 182's
`pd.DataFrame([])` has no columns and line 183's `sort_values("z_total")`
raises `KeyError`; the waiver side is guarded against emptiness (lines
187-188), the roster side is not.  Then maps waiver names, ranks both lists,
and assembles the report: bottom-3 roster entries, top-5 waiver entries, the
suggestion, the per-category team totals over matched roster players, and
the projection row count. -/
noncomputable def prepare_report (roster_names waiver_names : List String)
    (proj : ProjTable) : Except String Report :=
  let proj_z := compute_z_scores proj
  if proj_z.hasPlayerCol then
    match lookupAll proj_z roster_names with
    | .error e => .error e
    | .ok rosterOpts =>
      match entriesOf roster_names rosterOpts with
      | [] => .error "KeyError: z_total"
      | re0 :: res =>
        let roster_z := sortAsc (re0 :: res)
        match lookupAll proj_z waiver_names with
        | .error e => .error e
        | .ok waiverOpts =>
          let waiver_z := sortDesc (entriesOf waiver_names waiverOpts)
          .ok { underperformers := roster_z.take 3
                top_waivers := waiver_z.take 5
                suggestion := makeSuggestion roster_z waiver_z
                team_proj := fun c =>
                  (rosterOpts.map (fun o =>
                    match o with
                    | some r => r.stats c
                    | none => 0)).sum
                proj_count := proj_z.rows.length }
  else .error "Projection file must contain Player column"

/-! ## Concrete input tables used by the counterexamples and witnesses -/

/-- A row with a present value in PTS only. -/
noncomputable def ptsRow (name : String) (v : ℝ) : ProjRow :=
  ⟨name, fun c => if c = .PTS then some v else none⟩

/-- Two rows: "A" has PTS 10; "B" has no present value at all. -/
noncomputable def tblMissing : ProjTable :=
  ⟨true, [ptsRow "A" 10, ⟨"B", fun _ => none⟩]⟩

/-- Four rows: the present PTS values are 6 and 6 (all identical); rows "C"
and "D" have no present PTS value. -/
noncomputable def tblConstPresent : ProjTable :=
  ⟨true, [ptsRow "A" 6, ptsRow "B" 6, ⟨"C", fun _ => none⟩, ⟨"D", fun _ => none⟩]⟩

/-- A single-row table: player "A" with every category present (value 10). -/
noncomputable def tblOne : ProjTable :=
  ⟨true, [⟨"A", fun _ => some 10⟩]⟩

/-- Two rows with PTS 10 and 20: the PTS population std is 5. -/
noncomputable def tblTwo : ProjTable :=
  ⟨true, [ptsRow "A" 10, ptsRow "B" 20]⟩

/-- One projection row named "abc" (for the name-matching claims). -/
noncomputable def tblAbc : ProjTable :=
  ⟨true, [⟨"abc", fun _ => none⟩]⟩

/-- A projection table without a Player column. -/
noncomputable def tblNoPlayer : ProjTable :=
  ⟨false, []⟩

/-- Row with every category -1. -/
noncomputable def bigRowB : ProjRow := ⟨"B", fun _ => some (-1)⟩

/-- Row with every category 0. -/
noncomputable def bigRowZ : ProjRow := ⟨"Z", fun _ => some 0⟩

/-- 15626 rows: "B" with every stat -1 followed by 15625 "Z" rows with every
stat 0.  In every category the mean is -1/15626 and the population std is
125/15626, so "B" gets a z-score of -125 per category and a z_total of -1000:
a genuine aggregate strictly below the -999.0 sentinel of `prepare_report`. -/
noncomputable def tblBig : ProjTable :=
  ⟨true, bigRowB :: List.replicate 15625 bigRowZ⟩


/-! ## General helper lemmas -/

theorem sum_map_sub_div (l : List ℝ) (m s : ℝ) :
    (l.map (fun x => (x - m) / s)).sum = (l.sum - l.length * m) / s := by
  induction l with
  | nil => simp
  | cons a t ih =>
    rw [List.map_cons, List.sum_cons, ih, div_add_div_same, List.sum_cons,
      List.length_cons]
    congr 1
    push_cast
    ring

theorem sum_nonneg_all_zero (l : List ℝ) (h0 : ∀ x ∈ l, 0 ≤ x)
    (hs : l.sum = 0) : ∀ x ∈ l, x = 0 := by
  induction l with
  | nil => simp
  | cons a t ih =>
    rw [List.sum_cons] at hs
    have ha : 0 ≤ a := h0 a (List.mem_cons_self a t)
    have ht : 0 ≤ t.sum := List.sum_nonneg (fun x hx => h0 x (List.mem_cons_of_mem a hx))
    have ha0 : a = 0 := by linarith
    have hts : t.sum = 0 := by linarith
    intro x hx
    rcases List.mem_cons.mp hx with rfl | hx
    · exact ha0
    · exact ih (fun y hy => h0 y (List.mem_cons_of_mem a hy)) hts x hx

theorem find?_replicate_neg {α : Type} (p : α → Bool) (a : α) (n : ℕ)
    (h : p a = false) : (List.replicate n a).find? p = none := by
  induction n with
  | zero => rfl
  | succ k ih =>
    rw [List.replicate_succ, List.find?_cons_of_neg _ (by simp [h]), ih]

theorem find?_congr {α : Type} (p q : α → Bool) (l : List α)
    (h : ∀ a ∈ l, p a = q a) : l.find? p = l.find? q := by
  induction l with
  | nil => rfl
  | cons a t ih =>
    have ha := h a (List.mem_cons_self a t)
    by_cases hpa : p a = true
    · rw [List.find?_cons_of_pos _ hpa, List.find?_cons_of_pos _ (ha ▸ hpa)]
    · rw [List.find?_cons_of_neg _ hpa, List.find?_cons_of_neg _ (ha ▸ hpa),
        ih (fun x hx => h x (List.mem_cons_of_mem a hx))]

theorem lookupAll_length (df : ZTable) (names : List String)
    (os : List (Option ZRow)) (h : lookupAll df names = .ok os) :
    os.length = names.length := by
  induction names generalizing os with
  | nil => simp [lookupAll] at h; simp [← h]
  | cons p ps ih =>
    rw [lookupAll] at h
    cases hl : lookup_player_proj df p with
    | error e => rw [hl] at h; exact absurd h (by simp)
    | ok o =>
      rw [hl] at h
      cases hr : lookupAll df ps with
      | error e => rw [hr] at h; exact absurd h (by simp)
      | ok os' =>
        rw [hr] at h
        cases h
        simp [ih os' hr]

theorem lookupAll_cons_ok (df : ZTable) (p : String) (ps : List String)
    (o : Option ZRow) (os : List (Option ZRow))
    (h1 : lookup_player_proj df p = .ok o) (h2 : lookupAll df ps = .ok os) :
    lookupAll df (p :: ps) = .ok (o :: os) := by
  rw [lookupAll, h1, h2]

theorem entriesOf_length (names : List String) (os : List (Option ZRow))
    (h : os.length = names.length) :
    (entriesOf names os).length = names.length := by
  simp [entriesOf, h]

theorem entriesOf_cons_ne_nil (p : String) (ps : List String) (o : Option ZRow)
    (os : List (Option ZRow)) : entriesOf (p :: ps) (o :: os) ≠ [] := by
  show (entryOf p o :: entriesOf ps os) ≠ []
  exact List.cons_ne_nil _ _

/-! ## Stable-sort lemmas -/

theorem length_insertAsc (e : ZEntry) (l : List ZEntry) :
    (insertAsc e l).length = l.length + 1 := by
  induction l with
  | nil => rfl
  | cons x xs ih =>
    rw [insertAsc]
    split
    · simp [ih]
    · simp

theorem length_sortAsc (l : List ZEntry) : (sortAsc l).length = l.length := by
  induction l with
  | nil => rfl
  | cons x xs ih =>
    have hx : sortAsc (x :: xs) = insertAsc x (sortAsc xs) := rfl
    rw [hx, length_insertAsc, ih, List.length_cons]

theorem length_insertDesc (e : ZEntry) (l : List ZEntry) :
    (insertDesc e l).length = l.length + 1 := by
  induction l with
  | nil => rfl
  | cons x xs ih =>
    rw [insertDesc]
    split
    · simp [ih]
    · simp

theorem length_sortDesc (l : List ZEntry) : (sortDesc l).length = l.length := by
  induction l with
  | nil => rfl
  | cons x xs ih =>
    have hx : sortDesc (x :: xs) = insertDesc x (sortDesc xs) := rfl
    rw [hx, length_insertDesc, ih, List.length_cons]

theorem sortAsc_eq_nil (l : List ZEntry) (h : sortAsc l = []) : l = [] := by
  have := length_sortAsc l
  rw [h] at this
  exact List.length_eq_zero.mp this.symm

theorem sortDesc_eq_nil (l : List ZEntry) (h : sortDesc l = []) : l = [] := by
  have := length_sortDesc l
  rw [h] at this
  exact List.length_eq_zero.mp this.symm

/-! ## String-matching lemmas -/

theorem takeTok_no_ws (l : List Char) : ∀ c ∈ takeTok l, c.isWhitespace = false := by
  induction l with
  | nil => simp [takeTok]
  | cons a t ih =>
    rw [takeTok]
    by_cases ha : a.isWhitespace
    · rw [if_pos ha]; simp
    · rw [if_neg ha]
      intro c hc
      rcases List.mem_cons.mp hc with rfl | hc
      · exact Bool.eq_false_iff.mpr ha
      · exact ih c hc

theorem firstTokenL_spec (l tk : List Char) (h : firstTokenL l = some tk) :
    tk ≠ [] ∧ ∀ c ∈ tk, c.isWhitespace = false := by
  induction l with
  | nil => simp [firstTokenL] at h
  | cons a t ih =>
    rw [firstTokenL] at h
    by_cases ha : a.isWhitespace
    · rw [if_pos ha] at h
      exact ih h
    · rw [if_neg ha] at h
      cases h
      refine ⟨by simp, ?_⟩
      intro c hc
      rcases List.mem_cons.mp hc with rfl | hc
      · exact Bool.eq_false_iff.mpr ha
      · exact takeTok_no_ws t c hc

theorem patMatchesAt_eq_lit (pat : List Char)
    (h : ∀ c ∈ pat, (c == '.') = false) :
    ∀ s, patMatchesAt pat s = litMatchesAt pat s := by
  induction pat with
  | nil => intro s; rfl
  | cons p ps ih =>
    intro s
    cases s with
    | nil => rfl
    | cons c cs =>
      rw [patMatchesAt, litMatchesAt, h p (List.mem_cons_self p ps),
        ih (fun x hx => h x (List.mem_cons_of_mem p hx)) cs]
      simp

theorem patSearchL_eq_lit (pat : List Char)
    (h : ∀ c ∈ pat, (c == '.') = false) :
    ∀ s, patSearchL pat s = litSearchL pat s := by
  intro s
  induction s with
  | nil => simp [patSearchL, litSearchL, patMatchesAt_eq_lit pat h]
  | cons c cs ih =>
    rw [patSearchL, litSearchL, patMatchesAt_eq_lit pat h, ih]

theorem litMatchesAt_append_ws (pat : List Char)
    (hp : ∀ c ∈ pat, c.isWhitespace = false) :
    ∀ (x t : List Char), (∀ c ∈ t, c.isWhitespace = true) →
      litMatchesAt pat (x ++ t) = litMatchesAt pat x := by
  induction pat with
  | nil => intro x t _; rfl
  | cons p ps ih =>
    intro x t ht
    cases x with
    | nil =>
      cases t with
      | nil => rfl
      | cons w t' =>
        have hw : w.isWhitespace = true := ht w (List.mem_cons_self w t')
        have hpw : p.isWhitespace = false := hp p (List.mem_cons_self p ps)
        have hne : (p == w) = false := by
          refine beq_eq_false_iff_ne.mpr ?_
          intro hEq
          rw [hEq, hw] at hpw
          exact Bool.true_eq_false.mp hpw
        rw [List.nil_append]
        show (p == w && litMatchesAt ps t') = false
        rw [hne]
        rfl
    | cons a x' =>
      rw [List.cons_append, litMatchesAt, litMatchesAt,
        ih (fun c hc => hp c (List.mem_cons_of_mem p hc)) x' t ht]

theorem litSearchL_all_ws (pat t : List Char) (hpne : pat ≠ [])
    (hp : ∀ c ∈ pat, c.isWhitespace = false)
    (ht : ∀ c ∈ t, c.isWhitespace = true) : litSearchL pat t = false := by
  induction t with
  | nil =>
    cases pat with
    | nil => exact absurd rfl hpne
    | cons p ps => rfl
  | cons w t' ih =>
    cases pat with
    | nil => exact absurd rfl hpne
    | cons p ps =>
      have hw : w.isWhitespace = true := ht w (List.mem_cons_self w t')
      have hpw : p.isWhitespace = false := hp p (List.mem_cons_self p ps)
      have hne : (p == w) = false := by
        refine beq_eq_false_iff_ne.mpr ?_
        intro hEq
        rw [hEq, hw] at hpw
        exact Bool.true_eq_false.mp hpw
      rw [litSearchL]
      show (((p == w) && litMatchesAt ps t') || litSearchL (p :: ps) t') = false
      rw [hne, ih (fun c hc => ht c (List.mem_cons_of_mem w hc))]
      rfl

theorem litSearchL_append_ws (pat : List Char) (hpne : pat ≠ [])
    (hp : ∀ c ∈ pat, c.isWhitespace = false) :
    ∀ (x t : List Char), (∀ c ∈ t, c.isWhitespace = true) →
      litSearchL pat (x ++ t) = litSearchL pat x := by
  intro x
  induction x with
  | nil =>
    intro t ht
    rw [List.nil_append, litSearchL_all_ws pat t hpne hp ht]
    cases pat with
    | nil => exact absurd rfl hpne
    | cons p ps => rfl
  | cons a x' ih =>
    intro t ht
    rw [List.cons_append, litSearchL,
      show (a :: (x' ++ t)) = (a :: x') ++ t from rfl,
      litMatchesAt_append_ws pat hp (a :: x') t ht, ih t ht, litSearchL]

theorem litSearchL_dropWhile_ws (pat : List Char) (hpne : pat ≠ [])
    (hp : ∀ c ∈ pat, c.isWhitespace = false) :
    ∀ l : List Char, litSearchL pat (l.dropWhile Char.isWhitespace) = litSearchL pat l := by
  intro l
  induction l with
  | nil => rfl
  | cons a t ih =>
    by_cases ha : a.isWhitespace
    · rw [List.dropWhile_cons_of_pos ha, ih, litSearchL]
      cases pat with
      | nil => exact absurd rfl hpne
      | cons p ps =>
        have hpa : p.isWhitespace = false := hp p (List.mem_cons_self p ps)
        have hne : (p == a) = false := by
          refine beq_eq_false_iff_ne.mpr ?_
          intro hEq
          rw [hEq, ha] at hpa
          exact Bool.true_eq_false.mp hpa
        show litSearchL (p :: ps) t = (((p == a) && litMatchesAt ps t) || litSearchL (p :: ps) t)
        rw [hne]
        rfl
    · rw [List.dropWhile_cons_of_neg ha]

theorem litSearchL_trimL (pat : List Char) (hpne : pat ≠ [])
    (hp : ∀ c ∈ pat, c.isWhitespace = false) (l : List Char) :
    litSearchL pat (trimL l) = litSearchL pat l := by
  have h1 : litSearchL pat l = litSearchL pat (l.dropWhile Char.isWhitespace) :=
    (litSearchL_dropWhile_ws pat hpne hp l).symm
  set m := l.dropWhile Char.isWhitespace with hm
  have hdec : (m.reverse.dropWhile Char.isWhitespace).reverse ++
      (m.reverse.takeWhile Char.isWhitespace).reverse = m := by
    rw [← List.reverse_append, List.takeWhile_append_dropWhile, List.reverse_reverse]
  have hws : ∀ c ∈ (m.reverse.takeWhile Char.isWhitespace).reverse,
      c.isWhitespace = true := by
    intro c hc
    exact List.mem_takeWhile_imp (List.mem_reverse.mp hc)
  have h2 : litSearchL pat m = litSearchL pat (trimL l) := by
    conv_lhs => rw [← hdec]
    rw [litSearchL_append_ws pat hpne hp _ _ hws]
    rfl
  rw [h1, h2]

/-! ## Structural lemmas about the core pipeline -/

theorem compute_z_scores_rows (df : ProjTable) :
    (compute_z_scores df).rows = df.rows.map (zRowOf df) :=
  rfl

theorem zRowOf_player (df : ProjTable) (r : ProjRow) :
    (zRowOf df r).player = r.player := rfl

theorem zRowOf_z (df : ProjTable) (r : ProjRow) (c : StatCategory) :
    (zRowOf df r).z c = (coerce r c - catMean df c) / catStd df c := rfl

theorem zRowOf_z_total (df : ProjTable) (r : ProjRow) :
    (zRowOf df r).z_total =
      (CATS.map (fun c => (coerce r c - catMean df c) / catStd df c)).sum := rfl

theorem scoreEntries_of_lookupAll (df : ZTable) (names : List String)
    (os : List (Option ZRow)) (h : lookupAll df names = .ok os) :
    scoreEntries df names = .ok (entriesOf names os) := by
  rw [scoreEntries, h]
  rfl

theorem scoreEntries_ok_inv (df : ZTable) (names : List String)
    (re : List ZEntry) (h : scoreEntries df names = .ok re) :
    ∃ os, lookupAll df names = .ok os ∧ re = entriesOf names os := by
  rw [scoreEntries] at h
  cases hl : lookupAll df names with
  | error e => rw [hl] at h; exact absurd h (by simp [Except.map])
  | ok os =>
    rw [hl] at h
    refine ⟨os, rfl, ?_⟩
    simp [Except.map] at h
    exact h.symm

theorem prepare_report_eq_ok (roster waiver : List String) (proj : ProjTable)
    (ro wo : List (Option ZRow))
    (hp : proj.hasPlayerCol = true)
    (hr : lookupAll (compute_z_scores proj) roster = .ok ro)
    (hnil : entriesOf roster ro ≠ [])
    (hw : lookupAll (compute_z_scores proj) waiver = .ok wo) :
    prepare_report roster waiver proj = .ok
      { underperformers := (sortAsc (entriesOf roster ro)).take 3
        top_waivers := (sortDesc (entriesOf waiver wo)).take 5
        suggestion := makeSuggestion (sortAsc (entriesOf roster ro))
          (sortDesc (entriesOf waiver wo))
        team_proj := fun c =>
          (ro.map (fun o =>
            match o with
            | some r => r.stats c
            | none => 0)).sum
        proj_count := (compute_z_scores proj).rows.length } := by
  rw [prepare_report]
  simp only [show (compute_z_scores proj).hasPlayerCol = true from hp, if_true, hr, hw]
  cases hE : entriesOf roster ro with
  | nil => exact absurd hE hnil
  | cons e0 es => rfl

theorem prepare_report_ok_inv (roster waiver : List String) (proj : ProjTable)
    (rep : Report) (h : prepare_report roster waiver proj = .ok rep) :
    proj.hasPlayerCol = true ∧
    ∃ ro wo, lookupAll (compute_z_scores proj) roster = .ok ro ∧
      lookupAll (compute_z_scores proj) waiver = .ok wo ∧
      entriesOf roster ro ≠ [] ∧
      rep.underperformers = (sortAsc (entriesOf roster ro)).take 3 ∧
      rep.top_waivers = (sortDesc (entriesOf waiver wo)).take 5 ∧
      rep.suggestion = makeSuggestion (sortAsc (entriesOf roster ro))
        (sortDesc (entriesOf waiver wo)) := by
  rw [prepare_report] at h
  split at h
  case isTrue hpc =>
    split at h
    case h_1 e heq => exact absurd h (by simp)
    case h_2 ro heq =>
      split at h
      case h_1 hE => exact absurd h (by simp)
      case h_2 e0 es hE =>
        split at h
        case h_1 e heq2 => exact absurd h (by simp)
        case h_2 wo heq2 =>
          cases h
          refine ⟨hpc, ro, wo, heq, heq2, by rw [hE]; simp, ?_, rfl, ?_⟩
          · rw [hE]
          · rw [hE]
  case isFalse hpc => exact absurd h (by simp)

/-! ## Lemmas about coerced columns vs. present values -/

theorem coerce_sum_eq_present_sum (rows : List ProjRow) (c : StatCategory) :
    (rows.map (fun r => coerce r c)).sum = (rows.filterMap (fun r => r.stats c)).sum := by
  induction rows with
  | nil => rfl
  | cons r t ih =>
    rw [List.map_cons, List.sum_cons, ih]
    cases hr : r.stats c with
    | none => simp [List.filterMap_cons, hr, coerce]
    | some v => simp [List.filterMap_cons, hr, coerce]

/-- C1 (amended): in `compute_z_scores` the category mean is the sum of the
*present* values divided by the count of *all* rows: a row whose value is
missing or unparseable is coerced to 0.0 and included in the computation (it
contributes nothing to the sum but is counted in the denominator), rather
than being excluded. -/
theorem c1_mean_counts_missing_as_zero (df : ProjTable) (c : StatCategory) :
    catMean df c = (presentVals df c).sum / df.rows.length := by
  rw [catMean, catCol, List.length_map, coerce_sum_eq_present_sum, presentVals]

/-- C1 counterexample: in the table with rows `A` (PTS 10) and `B` (PTS
missing), the code's PTS mean is 5 — the missing value was coerced to zero
and counted — whereas the mean over the rows with a present value (the
claim's mean) is 10. -/
theorem c1_counterexample :
    catMean tblMissing .PTS = 5 ∧ presentMean tblMissing .PTS = 10 ∧
      catMean tblMissing .PTS ≠ presentMean tblMissing .PTS := by
  have h1 : catCol tblMissing .PTS = [10, 0] := by
    simp [catCol, tblMissing, ptsRow, coerce]
  have h2 : presentVals tblMissing .PTS = [10] := by
    simp [presentVals, tblMissing, ptsRow]
  have hm : catMean tblMissing .PTS = 5 := by
    rw [catMean, h1]; norm_num
  have hp : presentMean tblMissing .PTS = 10 := by
    rw [presentMean, h2]; norm_num
  refine ⟨hm, hp, ?_⟩
  rw [hm, hp]
  norm_num

/-- C10: every row of the output of `compute_z_scores` carries a numeric
normalized score for each category and a numeric `z_total` given by the
z-score formula over the coerced values — there is no unscored marker and no
non-numeric aggregate, even for a row with no present value in any category:
the output has exactly one such numeric row per input row. -/
theorem c10_all_rows_numeric (df : ProjTable) :
    (compute_z_scores df).rows.length = df.rows.length ∧
    ∀ (i : ℕ) (r0 : ProjRow), df.rows[i]? = some r0 →
      ∃ zr, (compute_z_scores df).rows[i]? = some zr ∧
        zr.player = r0.player ∧
        (∀ c, zr.z c = (coerce r0 c - catMean df c) / catStd df c) ∧
        zr.z_total = (CATS.map (fun c => (coerce r0 c - catMean df c) / catStd df c)).sum := by
  constructor
  · rw [compute_z_scores_rows, List.length_map]
  · intro i r0 hi
    refine ⟨zRowOf df r0, ?_, rfl, fun c => rfl, rfl⟩
    rw [compute_z_scores_rows, List.getElem?_map, hi, Option.map_some']

theorem c10_witness :
    tblOne.rows[0]? = some ⟨"A", fun _ => some 10⟩ ∧
    ∃ zr, (compute_z_scores tblOne).rows[0]? = some zr ∧
      zr.player = "A" ∧
      (∀ c, zr.z c = (coerce ⟨"A", fun _ => some 10⟩ c - catMean tblOne c) / catStd tblOne c) ∧
      zr.z_total = (CATS.map (fun c =>
        (coerce ⟨"A", fun _ => some 10⟩ c - catMean tblOne c) / catStd tblOne c)).sum :=
  ⟨rfl, (c10_all_rows_numeric tblOne).2 0 ⟨"A", fun _ => some 10⟩ rfl⟩

/-! ## C9: the normalized column has mean 0 when the std is nonzero -/

/-- C9: for every projection table and category whose (population) standard
deviation is nonzero, the population mean of the normalized-score column of
the output of `compute_z_scores` is exactly 0. -/
theorem c9_zcol_mean_zero (df : ProjTable) (c : StatCategory)
    (h : catStd0 df c ≠ 0) :
    (zCol df c).sum / (zCol df c).length = 0 := by
  have hne : df.rows ≠ [] := by
    intro hnil
    apply h
    rw [catStd0, catVar, catCol, hnil]
    simp
  have hlen : ((catCol df c).length : ℝ) ≠ 0 := by
    rw [catCol, List.length_map]
    exact_mod_cast (Nat.pos_of_ne_zero
      (fun h0 => hne (List.length_eq_zero.mp h0))).ne'
  have hcol : zCol df c = (catCol df c).map
      (fun x => (x - catMean df c) / catStd df c) := by
    rw [zCol, compute_z_scores_rows, List.map_map, catCol, List.map_map]
    rfl
  have hnum : (catCol df c).sum - (catCol df c).length * catMean df c = 0 := by
    rw [catMean]
    field_simp
  rw [hcol, sum_map_sub_div, hnum, zero_div, zero_div]

theorem c9_witness :
    catStd0 tblTwo .PTS ≠ 0 ∧
      (zCol tblTwo .PTS).sum / (zCol tblTwo .PTS).length = 0 := by
  have hc : catCol tblTwo .PTS = [10, 20] := by
    simp [catCol, tblTwo, ptsRow, coerce]
  have hm : catMean tblTwo .PTS = 15 := by
    rw [catMean, hc]; norm_num
  have hv : catVar tblTwo .PTS = 25 := by
    rw [catVar, hc, hm]; norm_num
  have h : catStd0 tblTwo .PTS ≠ 0 := by
    rw [catStd0]
    refine Real.sqrt_ne_zero'.mpr ?_
    rw [hv]
    norm_num
  exact ⟨h, c9_zcol_mean_zero tblTwo .PTS h⟩

/-! ## C5: zero std (or absent category) gives normalized score 0 -/

/-- Single-row tables: every category mean equals the row's own coerced
value, so every normalized score and the aggregate are 0. -/
theorem singleRow_all_zero (hp : Bool) (r0 : ProjRow) (zr : ZRow)
    (hmem : zr ∈ (compute_z_scores ⟨hp, [r0]⟩).rows) :
    (∀ c, zr.z c = 0) ∧ zr.z_total = 0 := by
  rw [compute_z_scores_rows] at hmem
  obtain ⟨r, hr, rfl⟩ := List.mem_map.mp hmem
  have hr0 : r = r0 := by
    rcases List.mem_cons.mp hr with h | h
    · exact h
    · exact absurd h (by simp)
  rw [hr0]
  have hmean : ∀ c, catMean ⟨hp, [r0]⟩ c = coerce r0 c := by
    intro c
    show ((⟨hp, [r0]⟩ : ProjTable).rows.map (fun r => coerce r c)).sum /
      ((⟨hp, [r0]⟩ : ProjTable).rows.map (fun r => coerce r c)).length = coerce r0 c
    simp
  constructor
  · intro c
    rw [zRowOf_z, hmean, sub_self, zero_div]
  · rw [zRowOf_z_total]
    apply List.sum_eq_zero
    intro x hx
    obtain ⟨c, _, rfl⟩ := List.mem_map.mp hx
    rw [hmean, sub_self, zero_div]

/-- C5 (amended): if the population standard deviation of a category's
*coerced* column (missing and unparseable values counted as 0.0) is 0 —
which covers a category absent from the whole table, since its coerced
column is all zeros — then every output row's normalized score for that
category is 0; and a single-row input yields normalized score 0 for every
category and aggregate 0 (not an unscored marker). -/
theorem c5_zero_std_policy :
    (∀ (df : ProjTable) (c : StatCategory) (zr : ZRow), catStd0 df c = 0 →
      zr ∈ (compute_z_scores df).rows → zr.z c = 0) ∧
    (∀ (hp : Bool) (r0 : ProjRow) (zr : ZRow),
      zr ∈ (compute_z_scores ⟨hp, [r0]⟩).rows →
        (∀ c, zr.z c = 0) ∧ zr.z_total = 0) := by
  constructor
  · intro df c zr h0 hmem
    rw [compute_z_scores_rows] at hmem
    obtain ⟨r, hr, rfl⟩ := List.mem_map.mp hmem
    rw [zRowOf_z]
    have hvnn : 0 ≤ catVar df c := by
      rw [catVar]
      apply div_nonneg
      · apply List.sum_nonneg
        intro x hx
        obtain ⟨y, _, rfl⟩ := List.mem_map.mp hx
        positivity
      · positivity
    have hvar0 : catVar df c = 0 := by
      have hle := Real.sqrt_eq_zero'.mp h0
      linarith
    have hsum0 : ((catCol df c).map (fun x => (x - catMean df c) ^ 2)).sum = 0 := by
      rw [catVar] at hvar0
      rcases div_eq_zero_iff.mp hvar0 with hnum | hden
      · exact hnum
      · have hlen0 : (catCol df c).length = 0 := by exact_mod_cast hden
        rw [List.length_eq_zero.mp hlen0]
        rfl
    have hsq : (coerce r c - catMean df c) ^ 2 = 0 := by
      refine sum_nonneg_all_zero _ ?_ hsum0 _ ?_
      · intro x hx
        obtain ⟨y, _, rfl⟩ := List.mem_map.mp hx
        positivity
      · refine List.mem_map.mpr ⟨coerce r c, ?_, rfl⟩
        rw [catCol]
        exact List.mem_map_of_mem _ hr
    have hzero : coerce r c - catMean df c = 0 := by
      exact pow_eq_zero_iff (two_ne_zero) |>.mp hsq
    rw [hzero, zero_div]
  · exact singleRow_all_zero

theorem c5_witness :
    catStd0 tblOne .PTS = 0 ∧
    ∃ zr ∈ (compute_z_scores tblOne).rows,
      zr.z .PTS = 0 ∧ (∀ c, zr.z c = 0) ∧ zr.z_total = 0 := by
  have hc : catCol tblOne .PTS = [10] := by
    simp [catCol, tblOne, coerce]
  have hm : catMean tblOne .PTS = 10 := by
    rw [catMean, hc]; norm_num
  have hv : catVar tblOne .PTS = 0 := by
    rw [catVar, hc, hm]; norm_num
  have h0 : catStd0 tblOne .PTS = 0 := by
    rw [catStd0, hv, Real.sqrt_zero]
  have hmem : zRowOf tblOne ⟨"A", fun _ => some 10⟩ ∈ (compute_z_scores tblOne).rows := by
    rw [compute_z_scores_rows]
    exact List.mem_map_of_mem _ (List.mem_cons_self _ _)
  refine ⟨h0, zRowOf tblOne ⟨"A", fun _ => some 10⟩, hmem,
    c5_zero_std_policy.1 tblOne .PTS _ h0 hmem,
    (c5_zero_std_policy.2 true ⟨"A", fun _ => some 10⟩ _ hmem).1,
    (c5_zero_std_policy.2 true ⟨"A", fun _ => some 10⟩ _ hmem).2⟩

/-- C5 counterexample: in the four-row table whose *present* PTS values are
6 and 6 (identical, so the claim's "std over present values" is 0), the first
row's normalized PTS score is 1, not 0: the two missing values were coerced
to 0, making the code's std 3. -/
theorem c5_counterexample :
    presentVals tblConstPresent .PTS = [6, 6] ∧
    ∃ zr, (compute_z_scores tblConstPresent).rows[0]? = some zr ∧
      zr.z .PTS = 1 ∧ zr.z .PTS ≠ 0 := by
  have hpv : presentVals tblConstPresent .PTS = [6, 6] := by
    simp [presentVals, tblConstPresent, ptsRow]
  have hc : catCol tblConstPresent .PTS = [6, 6, 0, 0] := by
    simp [catCol, tblConstPresent, ptsRow, coerce]
  have hm : catMean tblConstPresent .PTS = 3 := by
    rw [catMean, hc]; norm_num
  have hv : catVar tblConstPresent .PTS = 9 := by
    rw [catVar, hc, hm]; norm_num
  have hs0 : catStd0 tblConstPresent .PTS = 3 := by
    rw [catStd0, hv, show (9 : ℝ) = 3 ^ 2 by norm_num, Real.sqrt_sq (by norm_num)]
  have hs : catStd tblConstPresent .PTS = 3 := by
    rw [catStd, hs0]
    norm_num
  have hz : (zRowOf tblConstPresent (ptsRow "A" 6)).z .PTS = 1 := by
    rw [zRowOf_z, hm, hs, show coerce (ptsRow "A" 6) .PTS = 6 by simp [coerce, ptsRow]]
    norm_num
  exact ⟨hpv, zRowOf tblConstPresent (ptsRow "A" 6), rfl, hz, by rw [hz]; norm_num⟩

/-! ## Evaluation helpers for lookups and the suggestion -/

theorem sortAsc_singleton (e : ZEntry) : sortAsc [e] = [e] := rfl

theorem sortDesc_singleton (e : ZEntry) : sortDesc [e] = [e] := rfl

theorem makeSuggestion_nil_left (wz : List ZEntry) : makeSuggestion [] wz = none := by
  cases wz <;> rfl

theorem makeSuggestion_nil_right (rz : List ZEntry) : makeSuggestion rz [] = none := by
  cases rz <;> rfl

theorem makeSuggestion_cons (d : ZEntry) (rs : List ZEntry) (a : ZEntry)
    (ws : List ZEntry) :
    makeSuggestion (d :: rs) (a :: ws) =
      if a.z_total - d.z_total > 0 then
        some ⟨a.player, a.z_total, d.player, d.z_total, a.z_total - d.z_total⟩
      else none := rfl

theorem lookupAll_nil (df : ZTable) : lookupAll df [] = .ok [] := rfl

theorem lookupAll_single (df : ZTable) (p : String) (o : Option ZRow)
    (h : lookup_player_proj df p = .ok o) : lookupAll df [p] = .ok [o] := by
  rw [lookupAll, h]
  rfl

theorem lookup_single_hit (df : ZTable) (zr : ZRow) (p : String)
    (hrows : df.rows = [zr])
    (hex : (normKeyL zr.player == normKeyL p) = true) :
    lookup_player_proj df p = .ok (some zr) := by
  have hpos : (fun r : ZRow => normKeyL r.player == normKeyL p) zr = true := hex
  unfold lookup_player_proj
  rw [hrows, @List.find?_cons_of_pos _ (fun r : ZRow => normKeyL r.player == normKeyL p)
    zr [] hpos]

theorem lookup_single_miss (df : ZTable) (zr : ZRow) (p : String)
    (hrows : df.rows = [zr])
    (hex : (normKeyL zr.player == normKeyL p) = false)
    (tk : List Char) (htk : firstTokenL (lowerL p) = some tk)
    (hfrag : regexFragmentOk tk = true)
    (hpat : patSearchL tk (lowerL zr.player) = false) :
    lookup_player_proj df p = .ok none := by
  have hne : ¬ ((fun r : ZRow => normKeyL r.player == normKeyL p) zr = true) := by
    show ¬ ((normKeyL zr.player == normKeyL p) = true)
    rw [hex]
    simp
  have hne2 : ¬ ((fun r : ZRow => patSearchL tk (lowerL r.player)) zr = true) := by
    show ¬ (patSearchL tk (lowerL zr.player) = true)
    rw [hpat]
    simp
  unfold lookup_player_proj
  rw [hrows, @List.find?_cons_of_neg _ (fun r : ZRow => normKeyL r.player == normKeyL p)
    zr [] hne, List.find?_nil, htk]
  show (if regexFragmentOk tk then
      Except.ok ([zr].find? (fun r => patSearchL tk (lowerL r.player)))
    else Except.error "re.error: token outside the modelled regex fragment") = .ok none
  rw [if_pos hfrag, @List.find?_cons_of_neg _
    (fun r : ZRow => patSearchL tk (lowerL r.player)) zr [] hne2, List.find?_nil]

/-! ## Facts about the single-row table `tblOne` -/

theorem tblOne_rows :
    (compute_z_scores tblOne).rows = [zRowOf tblOne ⟨"A", fun _ => some 10⟩] := rfl

theorem tblOne_lookup_A :
    lookup_player_proj (compute_z_scores tblOne) "A" =
      .ok (some (zRowOf tblOne ⟨"A", fun _ => some 10⟩)) :=
  lookup_single_hit _ _ _ tblOne_rows (by decide)

theorem tblOne_lookup_X :
    lookup_player_proj (compute_z_scores tblOne) "X" = .ok none :=
  lookup_single_miss _ _ _ tblOne_rows (by decide) ['x'] (by decide) (by decide) (by decide)

theorem tblOne_zA_mem :
    zRowOf tblOne ⟨"A", fun _ => some 10⟩ ∈ (compute_z_scores tblOne).rows := by
  rw [tblOne_rows]
  exact List.mem_cons_self _ _

theorem tblOne_zA_total : (zRowOf tblOne ⟨"A", fun _ => some 10⟩).z_total = 0 :=
  (singleRow_all_zero true ⟨"A", fun _ => some 10⟩ _ tblOne_zA_mem).2

/-! ## C4: when a suggestion is emitted -/

/-- C4 (amended): an emitted suggestion always has
`z_gain = add_z - drop_z > 0`; with an empty waiver list the report carries no
suggestion; and absence of a suggestion with a nonempty waiver means the head
of the ascending roster ranking and the head of the descending waiver ranking
differ by at most 0 — so a suggestion is emitted exactly when the add
candidate's aggregate exceeds the drop candidate's.  An *empty roster*,
however, does not produce an absent recommendation: line 183 raises
`KeyError` (see the counterexample), so a successful report implies the
roster was nonempty. -/
theorem c4_suggestion_policy (roster waiver : List String) (proj : ProjTable)
    (rep : Report) (h : prepare_report roster waiver proj = .ok rep) :
    roster ≠ [] ∧
    (waiver = [] → rep.suggestion = none) ∧
    (∀ s, rep.suggestion = some s →
      s.z_gain = s.add_z - s.drop_z ∧ s.add_z - s.drop_z > 0) ∧
    (rep.suggestion = none → waiver = [] ∨
      ∃ re we d a, scoreEntries (compute_z_scores proj) roster = .ok re ∧
        scoreEntries (compute_z_scores proj) waiver = .ok we ∧
        (sortAsc re).head? = some d ∧ (sortDesc we).head? = some a ∧
        a.z_total - d.z_total ≤ 0) := by
  obtain ⟨hp, ro, wo, hro, hwo, hne, hu, ht, hs⟩ := prepare_report_ok_inv _ _ _ _ h
  refine ⟨?_, ?_, ?_, ?_⟩
  · intro hR
    apply hne
    rw [hR]
    rfl
  · rintro rfl
    rw [hs]
    have h2 : sortDesc (entriesOf [] wo) = [] := rfl
    rw [h2, makeSuggestion_nil_right]
  · intro s hsome
    rw [hs] at hsome
    cases hwz : sortDesc (entriesOf waiver wo) with
    | nil =>
      rw [hwz, makeSuggestion_nil_right] at hsome
      exact absurd hsome (by simp)
    | cons a ws =>
      cases hrz : sortAsc (entriesOf roster ro) with
      | nil =>
        rw [hrz, makeSuggestion_nil_left] at hsome
        exact absurd hsome (by simp)
      | cons d rs =>
        rw [hrz, hwz, makeSuggestion_cons] at hsome
        by_cases hgt : a.z_total - d.z_total > 0
        · rw [if_pos hgt] at hsome
          cases hsome
          exact ⟨rfl, hgt⟩
        · rw [if_neg hgt] at hsome
          exact absurd hsome (by simp)
  · intro hnone
    by_cases hwaiv : waiver = []
    · exact Or.inl hwaiv
    refine Or.inr ?_
    have hwlen : (entriesOf waiver wo).length = waiver.length :=
      entriesOf_length _ _ (lookupAll_length _ _ _ hwo)
    cases hrz : sortAsc (entriesOf roster ro) with
    | nil => exact absurd (sortAsc_eq_nil _ hrz) hne
    | cons d rs =>
      cases hwz : sortDesc (entriesOf waiver wo) with
      | nil =>
        exfalso
        apply hwaiv
        have hls := length_sortDesc (entriesOf waiver wo)
        rw [hwz] at hls
        refine List.length_eq_zero.mp ?_
        rw [← hwlen, ← hls]
        rfl
      | cons a ws =>
        refine ⟨entriesOf roster ro, entriesOf waiver wo, d, a,
          scoreEntries_of_lookupAll _ _ _ hro, scoreEntries_of_lookupAll _ _ _ hwo,
          by rw [hrz]; rfl, by rw [hwz]; rfl, ?_⟩
        rw [hs, hrz, hwz, makeSuggestion_cons] at hnone
        by_cases hgt : a.z_total - d.z_total > 0
        · rw [if_pos hgt] at hnone
          exact absurd hnone (by simp)
        · exact not_lt.mp hgt

theorem c4_witness : ∃ rep s,
    prepare_report ["X"] ["A"] tblOne = .ok rep ∧
    rep.suggestion = some s ∧
    s.z_gain = s.add_z - s.drop_z ∧ s.add_z - s.drop_z > 0 := by
  have hrl := lookupAll_single _ _ _ tblOne_lookup_X
  have hwl := lookupAll_single _ _ _ tblOne_lookup_A
  have hok := prepare_report_eq_ok ["X"] ["A"] tblOne _ _ rfl hrl
    (entriesOf_cons_ne_nil _ _ _ _) hwl
  have hsug : makeSuggestion (sortAsc (entriesOf ["X"] [none]))
      (sortDesc (entriesOf ["A"] [some (zRowOf tblOne ⟨"A", fun _ => some 10⟩)])) =
      some ⟨"A", (zRowOf tblOne ⟨"A", fun _ => some 10⟩).z_total, "X", -999,
        (zRowOf tblOne ⟨"A", fun _ => some 10⟩).z_total - -999⟩ := by
    have h1 : entriesOf ["X"] [none] = [⟨"X", -999⟩] := rfl
    have h2 : entriesOf ["A"] [some (zRowOf tblOne ⟨"A", fun _ => some 10⟩)] =
        [⟨"A", (zRowOf tblOne ⟨"A", fun _ => some 10⟩).z_total⟩] := rfl
    rw [h1, h2, sortAsc_singleton, sortDesc_singleton, makeSuggestion_cons, if_pos]
    show (zRowOf tblOne ⟨"A", fun _ => some 10⟩).z_total - (-999 : ℝ) > 0
    rw [tblOne_zA_total]
    norm_num
  obtain ⟨hgain, hpos⟩ := (c4_suggestion_policy ["X"] ["A"] tblOne _ hok).2.2.1 _ hsug
  exact ⟨_, _, hok, hsug, hgain, hpos⟩

/-- C4 counterexample: with an empty roster the code does not return an
absent recommendation — line 182's `pd.DataFrame([])` has no `z_total`
column, so line 183's `sort_values("z_total")` raises `KeyError` before the
suggestion logic of lines 208-220 is ever reached. -/
theorem c4_counterexample :
    prepare_report [] ["A"] tblOne = .error "KeyError: z_total" := rfl

/-! ## C8: what the report actually exposes -/

theorem insertAsc_le (e : ZEntry) (l : List ZEntry)
    (h : ∀ x ∈ l, ¬ x.z_total < e.z_total) : insertAsc e l = e :: l := by
  cases l with
  | nil => rfl
  | cons x xs => rw [insertAsc, if_neg (h x (List.mem_cons_self x xs))]

theorem sortAsc_const (l : List ZEntry) (v : ℝ)
    (h : ∀ x ∈ l, x.z_total = v) : sortAsc l = l := by
  induction l with
  | nil => rfl
  | cons x xs ih =>
    have hx : sortAsc (x :: xs) = insertAsc x (sortAsc xs) := rfl
    rw [hx, ih (fun y hy => h y (List.mem_cons_of_mem x hy)), insertAsc_le]
    intro y hy
    rw [h y (List.mem_cons_of_mem x hy), h x (List.mem_cons_self x xs)]
    exact lt_irrefl v

/-- C8 (amended): besides the suggestion, the report exposes only the *bottom
3* of the ascending-ranked scored roster (`underperformers`, line 203) and the
*top 5* of the descending-ranked scored waiver list (`top_waivers`, line 206):
each output list is the corresponding ranked list truncated with `head(n)`, so
its length is `min n` of the input length, and a roster (waiver) entry beyond
the bottom 3 (top 5) does not appear. -/
theorem c8_ranked_outputs (roster waiver : List String) (proj : ProjTable)
    (rep : Report) (h : prepare_report roster waiver proj = .ok rep) :
    ∃ re we, scoreEntries (compute_z_scores proj) roster = .ok re ∧
      scoreEntries (compute_z_scores proj) waiver = .ok we ∧
      re.length = roster.length ∧ we.length = waiver.length ∧
      rep.underperformers = (sortAsc re).take 3 ∧
      rep.top_waivers = (sortDesc we).take 5 ∧
      rep.underperformers.length = min 3 roster.length ∧
      rep.top_waivers.length = min 5 waiver.length := by
  obtain ⟨hp, ro, wo, hro, hwo, _, hu, ht, _⟩ := prepare_report_ok_inv _ _ _ _ h
  have hrlen : (entriesOf roster ro).length = roster.length :=
    entriesOf_length _ _ (lookupAll_length _ _ _ hro)
  have hwlen : (entriesOf waiver wo).length = waiver.length :=
    entriesOf_length _ _ (lookupAll_length _ _ _ hwo)
  refine ⟨_, _, scoreEntries_of_lookupAll _ _ _ hro,
    scoreEntries_of_lookupAll _ _ _ hwo, hrlen, hwlen, hu, ht, ?_, ?_⟩
  · rw [hu, List.length_take, length_sortAsc, hrlen]
  · rw [ht, List.length_take, length_sortDesc, hwlen]

theorem c8_witness : ∃ rep, prepare_report ["A"] [] tblOne = .ok rep ∧
    ∃ re we, scoreEntries (compute_z_scores tblOne) ["A"] = .ok re ∧
      scoreEntries (compute_z_scores tblOne) [] = .ok we ∧
      re.length = (["A"] : List String).length ∧
      we.length = ([] : List String).length ∧
      rep.underperformers = (sortAsc re).take 3 ∧
      rep.top_waivers = (sortDesc we).take 5 ∧
      rep.underperformers.length = min 3 (["A"] : List String).length ∧
      rep.top_waivers.length = min 5 ([] : List String).length := by
  have hr := lookupAll_single _ _ _ tblOne_lookup_A
  have hok := prepare_report_eq_ok ["A"] [] tblOne _ _ rfl hr
    (entriesOf_cons_ne_nil _ _ _ _) (lookupAll_nil (compute_z_scores tblOne))
  exact ⟨_, hok, c8_ranked_outputs ["A"] [] tblOne _ hok⟩

/-- C8 counterexample: with a four-player roster (all unmatched, hence all
tied at -999), the report's roster collection has only 3 entries and the
fourth roster player "S" appears nowhere in it — the output does not contain
the full ranked roster collection. -/
theorem c8_counterexample : ∃ rep,
    prepare_report ["P", "Q", "R", "S"] [] tblOne = .ok rep ∧
    rep.underperformers.length = 3 ∧
    ∀ e ∈ rep.underperformers, e.player ≠ "S" := by
  have hP : lookup_player_proj (compute_z_scores tblOne) "P" = .ok none :=
    lookup_single_miss _ _ _ tblOne_rows (by decide) ['p'] (by decide) (by decide) (by decide)
  have hQ : lookup_player_proj (compute_z_scores tblOne) "Q" = .ok none :=
    lookup_single_miss _ _ _ tblOne_rows (by decide) ['q'] (by decide) (by decide) (by decide)
  have hR : lookup_player_proj (compute_z_scores tblOne) "R" = .ok none :=
    lookup_single_miss _ _ _ tblOne_rows (by decide) ['r'] (by decide) (by decide) (by decide)
  have hS : lookup_player_proj (compute_z_scores tblOne) "S" = .ok none :=
    lookup_single_miss _ _ _ tblOne_rows (by decide) ['s'] (by decide) (by decide) (by decide)
  have l1 : lookupAll (compute_z_scores tblOne) ["P", "Q", "R", "S"] =
      .ok [none, none, none, none] :=
    lookupAll_cons_ok _ _ _ _ _ hP (lookupAll_cons_ok _ _ _ _ _ hQ
      (lookupAll_cons_ok _ _ _ _ _ hR (lookupAll_single _ _ _ hS)))
  have hok := prepare_report_eq_ok ["P", "Q", "R", "S"] [] tblOne _ _ rfl l1
    (entriesOf_cons_ne_nil _ _ _ _) (lookupAll_nil (compute_z_scores tblOne))
  have hsorted : sortAsc (entriesOf ["P", "Q", "R", "S"] [none, none, none, none]) =
      [⟨"P", -999⟩, ⟨"Q", -999⟩, ⟨"R", -999⟩, ⟨"S", -999⟩] := by
    rw [show entriesOf ["P", "Q", "R", "S"] [none, none, none, none] =
      [(⟨"P", -999⟩ : ZEntry), ⟨"Q", -999⟩, ⟨"R", -999⟩, ⟨"S", -999⟩] from rfl]
    apply sortAsc_const _ (-999)
    intro x hx
    rcases (by simpa using hx :
        x = (⟨"P", -999⟩ : ZEntry) ∨ x = (⟨"Q", -999⟩ : ZEntry) ∨
        x = (⟨"R", -999⟩ : ZEntry) ∨ x = (⟨"S", -999⟩ : ZEntry)) with
      rfl | rfl | rfl | rfl <;> rfl
  refine ⟨_, hok, ?_, ?_⟩
  · show ((sortAsc (entriesOf ["P", "Q", "R", "S"]
      [none, none, none, none])).take 3).length = 3
    rw [hsorted]
    rfl
  · show ∀ e ∈ (sortAsc (entriesOf ["P", "Q", "R", "S"]
      [none, none, none, none])).take 3, e.player ≠ "S"
    rw [hsorted]
    intro e he
    rcases (by simpa using he :
        e = (⟨"P", -999⟩ : ZEntry) ∨ e = (⟨"Q", -999⟩ : ZEntry) ∨
        e = (⟨"R", -999⟩ : ZEntry)) with rfl | rfl | rfl <;> decide

/-! ## C3: which inputs make the core raise -/

theorem lookup_ok_of_matchable (df : ZTable) (p : String)
    (h : matchableName df p) : ∃ o, lookup_player_proj df p = .ok o := by
  unfold lookup_player_proj
  cases hfind : df.rows.find? (fun r => normKeyL r.player == normKeyL p) with
  | some r => exact ⟨some r, rfl⟩
  | none =>
    rcases h with ⟨r, hr, hkey⟩ | htok
    · exfalso
      have hsome : (df.rows.find? (fun r => normKeyL r.player == normKeyL p)).isSome :=
        List.find?_isSome.mpr ⟨r, hr, by
          show (normKeyL r.player == normKeyL p) = true
          exact beq_iff_eq.mpr hkey⟩
      rw [hfind] at hsome
      simp at hsome
    · obtain ⟨tk, htk, hfrag⟩ := htok
      rw [htk]
      show ∃ o, (if regexFragmentOk tk then
          Except.ok (df.rows.find? (fun r => patSearchL tk (lowerL r.player)))
        else Except.error "re.error: token outside the modelled regex fragment") =
        Except.ok o
      rw [if_pos hfrag]
      exact ⟨_, rfl⟩

theorem lookupAll_ok_of_matchable (df : ZTable) (names : List String)
    (h : ∀ p ∈ names, matchableName df p) :
    ∃ os, lookupAll df names = .ok os := by
  induction names with
  | nil => exact ⟨[], rfl⟩
  | cons p ps ih =>
    obtain ⟨o, ho⟩ := lookup_ok_of_matchable df p (h p (List.mem_cons_self p ps))
    obtain ⟨os, hos⟩ := ih (fun q hq => h q (List.mem_cons_of_mem p hq))
    exact ⟨o :: os, lookupAll_cons_ok _ _ _ _ _ ho hos⟩

/-- C3 (amended): provided the projection table has a `Player` column, the
roster is nonempty, and every roster/waiver name either has an exact
(case-folded, trimmed) projection match or has a first whitespace-delimited
token free of regex metacharacters (other than `.`), the core terminates
with a value-level report.  Without these provisos it raises: `RuntimeError`
for a missing `Player` column (line 169), `IndexError` for a name with no
token (line 152, see the counterexample), `KeyError` for an empty roster
(line 183), and `re.error` for a regex-invalid token (line 152). -/
theorem c3_no_raise (roster waiver : List String) (proj : ProjTable)
    (hp : proj.hasPlayerCol = true)
    (hne : roster ≠ [])
    (hsafe : ∀ p ∈ roster ++ waiver, matchableName (compute_z_scores proj) p) :
    ∃ rep, prepare_report roster waiver proj = .ok rep := by
  obtain ⟨ro, hro⟩ := lookupAll_ok_of_matchable _ roster
    (fun p hp1 => hsafe p (List.mem_append_left _ hp1))
  obtain ⟨wo, hwo⟩ := lookupAll_ok_of_matchable _ waiver
    (fun p hp1 => hsafe p (List.mem_append_right _ hp1))
  have hnil : entriesOf roster ro ≠ [] := by
    have hlen : (entriesOf roster ro).length = roster.length :=
      entriesOf_length _ _ (lookupAll_length _ _ _ hro)
    intro hE
    apply hne
    apply List.length_eq_zero.mp
    rw [← hlen, hE]
    rfl
  exact ⟨_, prepare_report_eq_ok _ _ _ _ _ hp hro hnil hwo⟩

theorem c3_witness : tblOne.hasPlayerCol = true ∧ (["A"] : List String) ≠ [] ∧
    (∀ p ∈ (["A"] : List String) ++ ([] : List String),
      matchableName (compute_z_scores tblOne) p) ∧
    ∃ rep, prepare_report ["A"] [] tblOne = .ok rep := by
  have hsafe : ∀ p ∈ (["A"] : List String) ++ ([] : List String),
      matchableName (compute_z_scores tblOne) p := by
    intro p hp
    have hpA : p = "A" := by simpa using hp
    rw [hpA]
    exact Or.inr ⟨['a'], by decide, by decide⟩
  exact ⟨rfl, by simp, hsafe, c3_no_raise ["A"] [] tblOne rfl (by simp) hsafe⟩

/-- C3 counterexample: a whitespace-only roster name reaches
`player_name.lower().split()[0]` with an empty split, so the core raises
`IndexError` instead of producing a value-level outcome. -/
theorem c3_counterexample :
    prepare_report [" "] [] tblOne = .error "IndexError: list index out of range" := by
  have hne : ¬ ((fun r : ZRow => normKeyL r.player == normKeyL " ")
      (zRowOf tblOne ⟨"A", fun _ => some 10⟩) = true) := by decide
  have hl : lookup_player_proj (compute_z_scores tblOne) " " =
      .error "IndexError: list index out of range" := by
    unfold lookup_player_proj
    rw [tblOne_rows, @List.find?_cons_of_neg ZRow
      (fun r : ZRow => normKeyL r.player == normKeyL " ")
      (zRowOf tblOne ⟨"A", fun _ => some 10⟩) [] hne, List.find?_nil,
      show firstTokenL (lowerL " ") = none from rfl]
  have hLA : lookupAll (compute_z_scores tblOne) [" "] =
      .error "IndexError: list index out of range" := by
    rw [lookupAll, hl]
  rw [prepare_report]
  simp only [show (compute_z_scores tblOne).hasPlayerCol = true from rfl, if_true, hLA]

/-! ## C6: the fallback is a regular-expression search, not containment -/

/-- C6 (amended): `lookup_player_proj` first takes an exact match on the
case-folded trimmed key; with no exact match it searches the first
whitespace-delimited token of the case-folded name as a *regular expression*
in the lowercased projection names (pandas `str.contains`), taking the first
match in projection order, else absent.  For a token free of regex
metacharacters this coincides with the claim's containment rule (the spec's
`lookupSpec`), trimmed or not. -/
theorem c6_lookup_refines_spec (df : ZTable) (name : String) (tk : List Char)
    (htk : firstTokenL (lowerL name) = some tk)
    (hm : ∀ c ∈ tk, isRegexMeta c = false) :
    lookup_player_proj df name = .ok (lookupSpec df name) := by
  obtain ⟨hne, hws⟩ := firstTokenL_spec _ _ htk
  have hdot : ∀ c ∈ tk, (c == '.') = false := by
    intro c hc
    refine beq_eq_false_iff_ne.mpr ?_
    intro heq
    have h1 := hm c hc
    rw [heq] at h1
    exact absurd h1 (by decide)
  have hfind : df.rows.find? (fun r => patSearchL tk (lowerL r.player)) =
      df.rows.find? (fun r => litSearchL tk (normKeyL r.player)) := by
    apply find?_congr
    intro r _
    rw [patSearchL_eq_lit tk hdot, normKeyL, litSearchL_trimL tk hne hws]
  unfold lookup_player_proj lookupSpec
  cases hf : df.rows.find? (fun r => normKeyL r.player == normKeyL name) with
  | some r => rfl
  | none =>
    rw [htk]
    have hfrag : regexFragmentOk tk = true := by
      rw [regexFragmentOk, List.all_eq_true]
      intro c hc
      rw [hm c hc]
      simp
    show (if regexFragmentOk tk then
        Except.ok (df.rows.find? (fun r => patSearchL tk (lowerL r.player)))
      else Except.error "re.error: token outside the modelled regex fragment") =
      .ok (df.rows.find? (fun r => litSearchL tk (normKeyL r.player)))
    rw [if_pos hfrag, hfind]

theorem c6_witness :
    firstTokenL (lowerL "b") = some ['b'] ∧
    (∀ c ∈ ['b'], isRegexMeta c = false) ∧
    lookup_player_proj (compute_z_scores tblAbc) "b" =
      .ok (lookupSpec (compute_z_scores tblAbc) "b") :=
  ⟨by decide, by decide, c6_lookup_refines_spec _ "b" ['b'] (by decide) (by decide)⟩

/-- C6 counterexample: looking up "a.c" against the single projection name
"abc", the code's fallback `str.contains` treats the token "a.c" as a regular
expression whose `.` matches `b`, so the code matches the row — while the
claim's containment rule finds no exact match and no substring containment
and maps the player to absent. -/
theorem c6_counterexample : ∃ zr,
    lookup_player_proj (compute_z_scores tblAbc) "a.c" = .ok (some zr) ∧
    lookupSpec (compute_z_scores tblAbc) "a.c" = none := by
  have hrows : (compute_z_scores tblAbc).rows =
      [zRowOf tblAbc ⟨"abc", fun _ => none⟩] := rfl
  have hne : ¬ ((fun r : ZRow => normKeyL r.player == normKeyL "a.c")
      (zRowOf tblAbc ⟨"abc", fun _ => none⟩) = true) := by decide
  refine ⟨zRowOf tblAbc ⟨"abc", fun _ => none⟩, ?_, ?_⟩
  · have hpos : (fun r : ZRow => patSearchL ['a', '.', 'c'] (lowerL r.player))
        (zRowOf tblAbc ⟨"abc", fun _ => none⟩) = true := by decide
    unfold lookup_player_proj
    rw [hrows, @List.find?_cons_of_neg ZRow
      (fun r : ZRow => normKeyL r.player == normKeyL "a.c")
      (zRowOf tblAbc ⟨"abc", fun _ => none⟩) [] hne, List.find?_nil,
      show firstTokenL (lowerL "a.c") = some ['a', '.', 'c'] from by decide]
    show Except.ok ([zRowOf tblAbc ⟨"abc", fun _ => none⟩].find?
      (fun r => patSearchL ['a', '.', 'c'] (lowerL r.player))) = _
    rw [@List.find?_cons_of_pos ZRow
      (fun r : ZRow => patSearchL ['a', '.', 'c'] (lowerL r.player))
      (zRowOf tblAbc ⟨"abc", fun _ => none⟩) [] hpos]
  · have hneg : ¬ ((fun r : ZRow => litSearchL ['a', '.', 'c'] (normKeyL r.player))
        (zRowOf tblAbc ⟨"abc", fun _ => none⟩) = true) := by decide
    unfold lookupSpec
    rw [hrows, @List.find?_cons_of_neg ZRow
      (fun r : ZRow => normKeyL r.player == normKeyL "a.c")
      (zRowOf tblAbc ⟨"abc", fun _ => none⟩) [] hne, List.find?_nil,
      show firstTokenL (lowerL "a.c") = some ['a', '.', 'c'] from by decide]
    show ([zRowOf tblAbc ⟨"abc", fun _ => none⟩].find?
      (fun r => litSearchL ['a', '.', 'c'] (normKeyL r.player))) = none
    rw [@List.find?_cons_of_neg ZRow
      (fun r : ZRow => litSearchL ['a', '.', 'c'] (normKeyL r.player))
      (zRowOf tblAbc ⟨"abc", fun _ => none⟩) [] hneg, List.find?_nil]

/-! ## C2: the -999.0 sentinel is not a dominating sentinel -/

/-- C2 (amended): an unmatched entry is assigned the fixed aggregate -999.0
rather than a sentinel dominating every real aggregate.  In the scenario
roster = [one unmatched name], waiver = [one matched name], a suggestion is
emitted iff the matched waiver player's aggregate strictly exceeds -999, and
its projectedGain is then that aggregate + 999; a finite matched aggregate of
-999 or below yields no suggestion (see the counterexample). -/
theorem c2_sentinel_policy (proj : ProjTable) (rn wn : String) (row : ZRow)
    (rep : Report)
    (h : prepare_report [rn] [wn] proj = .ok rep)
    (hr : lookup_player_proj (compute_z_scores proj) rn = .ok none)
    (hw : lookup_player_proj (compute_z_scores proj) wn = .ok (some row)) :
    (rep.suggestion.isSome ↔ row.z_total > -999) ∧
    ∀ s, rep.suggestion = some s →
      s.add = wn ∧ s.add_z = row.z_total ∧ s.drop = rn ∧ s.drop_z = -999 ∧
      s.z_gain = row.z_total + 999 := by
  obtain ⟨hp, ro, wo, hro, hwo, _, _, _, hs⟩ := prepare_report_ok_inv _ _ _ _ h
  have hro2 : lookupAll (compute_z_scores proj) [rn] = .ok [none] :=
    lookupAll_single _ _ _ hr
  have hwo2 : lookupAll (compute_z_scores proj) [wn] = .ok [some row] :=
    lookupAll_single _ _ _ hw
  rw [hro2] at hro
  cases hro
  rw [hwo2] at hwo
  cases hwo
  have h1 : entriesOf [rn] [none] = [⟨rn, -999⟩] := rfl
  have h2 : entriesOf [wn] [some row] = [⟨wn, row.z_total⟩] := rfl
  rw [h1, h2, sortAsc_singleton, sortDesc_singleton, makeSuggestion_cons] at hs
  have hcond : ((⟨wn, row.z_total⟩ : ZEntry).z_total -
      (⟨rn, (-999 : ℝ)⟩ : ZEntry).z_total > 0) ↔ row.z_total > -999 := by
    show (row.z_total - -999 > 0) ↔ row.z_total > -999
    constructor
    · intro hx; linarith
    · intro hx; linarith
  constructor
  · by_cases hgt : row.z_total > -999
    · rw [if_pos (hcond.mpr hgt)] at hs
      rw [hs]
      simp [hgt]
    · rw [if_neg (fun hc => hgt (hcond.mp hc))] at hs
      rw [hs]
      simp [hgt]
  · intro s hsome
    rw [hs] at hsome
    by_cases hgt : row.z_total > -999
    · rw [if_pos (hcond.mpr hgt)] at hsome
      cases hsome
      refine ⟨rfl, rfl, rfl, rfl, ?_⟩
      show row.z_total - -999 = row.z_total + 999
      ring
    · rw [if_neg (fun hc => hgt (hcond.mp hc))] at hsome
      exact absurd hsome (by simp)

theorem c2_witness : ∃ rep row,
    prepare_report ["X"] ["A"] tblOne = .ok rep ∧
    lookup_player_proj (compute_z_scores tblOne) "X" = .ok none ∧
    lookup_player_proj (compute_z_scores tblOne) "A" = .ok (some row) ∧
    (rep.suggestion.isSome ↔ row.z_total > -999) := by
  have hrl := lookupAll_single _ _ _ tblOne_lookup_X
  have hwl := lookupAll_single _ _ _ tblOne_lookup_A
  have hok := prepare_report_eq_ok ["X"] ["A"] tblOne _ _ rfl hrl
    (entriesOf_cons_ne_nil _ _ _ _) hwl
  exact ⟨_, _, hok, tblOne_lookup_X, tblOne_lookup_A,
    (c2_sentinel_policy tblOne "X" "A" _ _ hok tblOne_lookup_X tblOne_lookup_A).1⟩

/-! ### The 15626-row table: a genuine aggregate below -999 -/

theorem big_rows : (compute_z_scores tblBig).rows =
    zRowOf tblBig bigRowB :: List.replicate 15625 (zRowOf tblBig bigRowZ) := by
  rw [compute_z_scores_rows,
    show tblBig.rows = bigRowB :: List.replicate 15625 bigRowZ from rfl,
    List.map_cons, List.map_replicate]

theorem big_catCol (c : StatCategory) :
    catCol tblBig c = (-1 : ℝ) :: List.replicate 15625 0 := by
  rw [catCol, show tblBig.rows = bigRowB :: List.replicate 15625 bigRowZ from rfl,
    List.map_cons, List.map_replicate,
    show coerce bigRowB c = (-1 : ℝ) from rfl,
    show coerce bigRowZ c = (0 : ℝ) from rfl]

theorem big_mean (c : StatCategory) : catMean tblBig c = -1 / 15626 := by
  rw [catMean, big_catCol c, List.sum_cons, List.sum_replicate, List.length_cons,
    List.length_replicate]
  norm_num

theorem big_var (c : StatCategory) : catVar tblBig c = 15625 / 15626 ^ 2 := by
  rw [catVar, big_catCol c, big_mean c, List.map_cons, List.map_replicate,
    List.sum_cons, List.sum_replicate, List.length_cons, List.length_replicate,
    nsmul_eq_mul]
  push_cast
  norm_num

theorem big_std0 (c : StatCategory) : catStd0 tblBig c = 125 / 15626 := by
  rw [catStd0, big_var c,
    show (15625 : ℝ) / 15626 ^ 2 = (125 / 15626) ^ 2 by norm_num,
    Real.sqrt_sq (by norm_num)]

theorem big_std (c : StatCategory) : catStd tblBig c = 125 / 15626 := by
  rw [catStd, big_std0 c, if_neg (by norm_num)]

theorem big_zB_total : (zRowOf tblBig bigRowB).z_total = -1000 := by
  rw [zRowOf_z_total]
  have hz : ∀ c : StatCategory,
      (coerce bigRowB c - catMean tblBig c) / catStd tblBig c = -125 := by
    intro c
    rw [show coerce bigRowB c = (-1 : ℝ) from rfl, big_mean c, big_std c]
    norm_num
  rw [List.map_congr_left (fun c _ => hz c)]
  show ((CATS.map fun _ => (-125 : ℝ)).sum) = -1000
  rw [CATS]
  simp
  norm_num

theorem big_lookup_B :
    lookup_player_proj (compute_z_scores tblBig) "B" =
      .ok (some (zRowOf tblBig bigRowB)) := by
  have hpos : (fun r : ZRow => normKeyL r.player == normKeyL "B")
      (zRowOf tblBig bigRowB) = true := by decide
  unfold lookup_player_proj
  rw [big_rows, @List.find?_cons_of_pos ZRow
    (fun r : ZRow => normKeyL r.player == normKeyL "B")
    (zRowOf tblBig bigRowB) (List.replicate 15625 (zRowOf tblBig bigRowZ)) hpos]

theorem big_lookup_unknown :
    lookup_player_proj (compute_z_scores tblBig) "Unknown Player" = .ok none := by
  have hneB : ¬ ((fun r : ZRow => normKeyL r.player == normKeyL "Unknown Player")
      (zRowOf tblBig bigRowB) = true) := by decide
  have hneZ : ((fun r : ZRow => normKeyL r.player == normKeyL "Unknown Player")
      (zRowOf tblBig bigRowZ)) = false := by decide
  have hneB2 : ¬ ((fun r : ZRow =>
      patSearchL ['u', 'n', 'k', 'n', 'o', 'w', 'n'] (lowerL r.player))
      (zRowOf tblBig bigRowB) = true) := by decide
  have hneZ2 : ((fun r : ZRow =>
      patSearchL ['u', 'n', 'k', 'n', 'o', 'w', 'n'] (lowerL r.player))
      (zRowOf tblBig bigRowZ)) = false := by decide
  unfold lookup_player_proj
  rw [big_rows, @List.find?_cons_of_neg ZRow
      (fun r : ZRow => normKeyL r.player == normKeyL "Unknown Player")
      (zRowOf tblBig bigRowB) (List.replicate 15625 (zRowOf tblBig bigRowZ)) hneB,
    find?_replicate_neg (fun r : ZRow => normKeyL r.player == normKeyL "Unknown Player")
      (zRowOf tblBig bigRowZ) 15625 hneZ,
    show firstTokenL (lowerL "Unknown Player") =
      some ['u', 'n', 'k', 'n', 'o', 'w', 'n'] from by decide]
  show Except.ok
    ((zRowOf tblBig bigRowB :: List.replicate 15625 (zRowOf tblBig bigRowZ)).find?
      (fun r => patSearchL ['u', 'n', 'k', 'n', 'o', 'w', 'n'] (lowerL r.player))) =
    .ok none
  rw [@List.find?_cons_of_neg ZRow
      (fun r : ZRow => patSearchL ['u', 'n', 'k', 'n', 'o', 'w', 'n'] (lowerL r.player))
      (zRowOf tblBig bigRowB) (List.replicate 15625 (zRowOf tblBig bigRowZ)) hneB2,
    find?_replicate_neg
      (fun r : ZRow => patSearchL ['u', 'n', 'k', 'n', 'o', 'w', 'n'] (lowerL r.player))
      (zRowOf tblBig bigRowZ) 15625 hneZ2]

/-- C2 counterexample: in the 15626-row table the matched waiver player "B"
has the genuine finite aggregate -1000, which the unmatched roster player's
-999.0 "sentinel" fails to rank below; `projectedGain` would be -1, so no
suggestion is emitted, refuting both the dominating-sentinel property and
"projectedGain is positive whenever the waiver player's aggregate is any
finite value". -/
theorem c2_counterexample : ∃ rep,
    prepare_report ["Unknown Player"] ["B"] tblBig = .ok rep ∧
    scoreEntries (compute_z_scores tblBig) ["B"] = .ok [⟨"B", -1000⟩] ∧
    rep.suggestion = none := by
  have hrl := lookupAll_single _ _ _ big_lookup_unknown
  have hwl := lookupAll_single _ _ _ big_lookup_B
  have hok := prepare_report_eq_ok ["Unknown Player"] ["B"] tblBig _ _ rfl hrl
    (entriesOf_cons_ne_nil _ _ _ _) hwl
  have hsc : scoreEntries (compute_z_scores tblBig) ["B"] = .ok [⟨"B", -1000⟩] := by
    rw [scoreEntries_of_lookupAll _ _ _ hwl]
    show Except.ok [(⟨"B", (zRowOf tblBig bigRowB).z_total⟩ : ZEntry)] =
      Except.ok [(⟨"B", (-1000 : ℝ)⟩ : ZEntry)]
    rw [big_zB_total]
  have hsug : makeSuggestion (sortAsc (entriesOf ["Unknown Player"] [none]))
      (sortDesc (entriesOf ["B"] [some (zRowOf tblBig bigRowB)])) = none := by
    rw [show entriesOf ["Unknown Player"] [none] =
        [(⟨"Unknown Player", -999⟩ : ZEntry)] from rfl,
      show entriesOf ["B"] [some (zRowOf tblBig bigRowB)] =
        [(⟨"B", (zRowOf tblBig bigRowB).z_total⟩ : ZEntry)] from rfl,
      sortAsc_singleton, sortDesc_singleton, makeSuggestion_cons, if_neg]
    show ¬ ((zRowOf tblBig bigRowB).z_total - (-999 : ℝ) > 0)
    rw [big_zB_total]
    norm_num
  exact ⟨_, hok, hsc, hsug⟩
